import Mathlib

/-!
Verification of the feature-aggregation pipeline of `projet_notes`
(`src/projet_notes/control.py`).

The pandas code is shallowly embedded as follows.

* An event row of the log dataframe (`df_logs`) is a structure `Event` with
  the columns used by the aggregators: `pseudo` (subject key), `jour`
  (calendar day, embedded as the integer number of days since a fixed Monday
  epoch, so that `pd.to_datetime(jour).dt.weekday` becomes `jour % 7` and
  date subtraction `.days` becomes integer subtraction), `heure` (clock time,
  embedded as minutes since midnight, so that `.dt.hour` becomes
  `heure / 60` and time subtraction in minutes becomes subtraction), and the
  three categorical columns `composant`, `contexte_general`, `evenement`.
* A dataframe produced by an aggregator is a `Frame`: a list of non-key
  column names together with rows `(pseudo, values)`.  `pd.merge` with
  `how = left` on `pseudo` is `leftMerge`, which (faithfully to pandas)
  emits one output row per matching right row and a null-padded row when the
  key is absent.
* pandas `groupby` sorts its keys, and `pd.crosstab` sorts its column
  labels; correspondingly the list of subjects `pseudos` and the categorical
  vocabularies are sorted deduplicated lists.
* Missing values (`NaN`) are the explicit `Val.null` in aggregator frames,
  and `Option` in scalar results.
* Exact rational arithmetic (`ℚ`) stands for float arithmetic: every claim
  checked here is about values (counts, means, fractions) whose defining
  expressions are exact in the source as well, except where noted.
-/

namespace ProjetNotes

/-! ### Generic list helpers -/

/-- Maximum of a list for a linear order, `d` for the empty list
(the empty case never arises for a grouped subject). -/
def lstMax [LinearOrder α] (d : α) : List α → α
  | [] => d
  | [x] => x
  | x :: y :: r => max x (lstMax d (y :: r))

/-- Minimum of a list, `d` for the empty list. -/
def lstMin [LinearOrder α] (d : α) : List α → α
  | [] => d
  | [x] => x
  | x :: y :: r => min x (lstMin d (y :: r))

theorem le_lstMax [LinearOrder α] (d : α) {l : List α} {x : α} (hx : x ∈ l) :
    x ≤ lstMax d l := by
  induction l with
  | nil => cases hx
  | cons a t ih =>
    cases t with
    | nil =>
      rw [List.mem_singleton.mp hx]
      exact le_refl _
    | cons b r =>
      rcases List.mem_cons.mp hx with h | h
      · subst h; exact le_max_left _ _
      · exact le_trans (ih h) (le_max_right _ _)

theorem lstMax_mem [LinearOrder α] (d : α) {l : List α} (hl : l ≠ []) :
    lstMax d l ∈ l := by
  induction l with
  | nil => exact absurd rfl hl
  | cons a t ih =>
    cases t with
    | nil => simp [lstMax]
    | cons b r =>
      rcases max_cases a (lstMax d (b :: r)) with ⟨he, _⟩ | ⟨he, _⟩
      · simp only [lstMax, he]; exact List.mem_cons_self _ _
      · simp only [lstMax, he]
        exact List.mem_cons_of_mem _ (ih (by simp))

theorem lstMin_le [LinearOrder α] (d : α) {l : List α} {x : α} (hx : x ∈ l) :
    lstMin d l ≤ x := by
  induction l with
  | nil => cases hx
  | cons a t ih =>
    cases t with
    | nil =>
      rw [List.mem_singleton.mp hx]
      exact le_refl _
    | cons b r =>
      rcases List.mem_cons.mp hx with h | h
      · subst h; exact min_le_left _ _
      · exact le_trans (min_le_right _ _) (ih h)

theorem lstMin_mem [LinearOrder α] (d : α) {l : List α} (hl : l ≠ []) :
    lstMin d l ∈ l := by
  induction l with
  | nil => exact absurd rfl hl
  | cons a t ih =>
    cases t with
    | nil => simp [lstMin]
    | cons b r =>
      rcases min_cases a (lstMin d (b :: r)) with ⟨he, _⟩ | ⟨he, _⟩
      · simp only [lstMin, he]; exact List.mem_cons_self _ _
      · simp only [lstMin, he]
        exact List.mem_cons_of_mem _ (ih (by simp))

/-- Sorted (lexicographic) order on the distinct values of a list of
strings: pandas `groupby` sorts group keys and `pd.crosstab` sorts its
labels. -/
def sortedKeys (l : List String) : List String :=
  l.dedup.insertionSort (· ≤ ·)

theorem sortedKeys_nodup (l : List String) : (sortedKeys l).Nodup :=
  ((List.perm_insertionSort (· ≤ ·) l.dedup).nodup_iff).mpr l.nodup_dedup

theorem mem_sortedKeys {l : List String} {x : String} :
    x ∈ sortedKeys l ↔ x ∈ l := by
  unfold sortedKeys
  rw [List.mem_insertionSort, List.mem_dedup]

/-- Arithmetic mean of a list of rationals (pandas `mean`). -/
def qMean (xs : List ℚ) : ℚ := xs.sum / xs.length

/-! ### The event table -/

/-- One row of the normalized log dataframe `df_logs`. -/
structure Event where
  pseudo : String
  /-- Column `jour`: calendar day, as days since a fixed Monday epoch. -/
  jour : ℤ
  /-- Columns `heure` / `heures`: clock time, as minutes since midnight. -/
  heure : ℕ
  composant : String
  contexte_general : String
  evenement : String
deriving Repr, DecidableEq

/-- The log dataframe.  Besides its rows we record the names of the helper
columns that some aggregators add to the dataframe in place
(`df_logs[c] = ...`), which is exactly the information needed to decide
whether an aggregator mutates its input. -/
structure EventTable where
  rows : List Event
  extraCols : List String
deriving Repr, DecidableEq

/-- The distinct subjects, sorted, as produced by `groupby` on `pseudo`. -/
def pseudos (t : EventTable) : List String :=
  sortedKeys (t.rows.map (fun e => e.pseudo))

theorem pseudos_nodup (t : EventTable) : (pseudos t).Nodup :=
  sortedKeys_nodup _

theorem mem_pseudos {t : EventTable} {p : String} :
    p ∈ pseudos t ↔ ∃ e ∈ t.rows, e.pseudo = p := by
  unfold pseudos
  rw [mem_sortedKeys, List.mem_map]

/-- The rows of a given subject (one `groupby` group). -/
def subjRows (t : EventTable) (p : String) : List Event :=
  t.rows.filter (fun e => e.pseudo = p)

/-- The `jour` values of a subject's rows. -/
def subjDays (t : EventTable) (p : String) : List ℤ :=
  (subjRows t p).map (fun e => e.jour)

theorem subjRows_ne_nil {t : EventTable} {p : String} (hp : p ∈ pseudos t) :
    subjRows t p ≠ [] := by
  rcases mem_pseudos.mp hp with ⟨e, he, rfl⟩
  have : e ∈ subjRows t e.pseudo := by
    unfold subjRows
    rw [List.mem_filter]
    exact ⟨he, by simp⟩
  intro h
  rw [h] at this
  cases this

theorem subjDays_ne_nil {t : EventTable} {p : String} (hp : p ∈ pseudos t) :
    subjDays t p ≠ [] := by
  unfold subjDays
  simp only [ne_eq, List.map_eq_nil_iff]
  exact subjRows_ne_nil hp

/-! ### Per-subject scalar statistics (the values computed by the
aggregators of `control.py`) -/

/-- `nb_actions`: `df_logs.groupby(pseudo).size()` for one subject. -/
def nbActionsVal (t : EventTable) (p : String) : ℕ :=
  (subjRows t p).length

/-- The per-day event counts of a subject:
`df_logs.groupby([pseudo, jour]).size()` restricted to one subject,
one entry per distinct active day. -/
def jourCounts (t : EventTable) (p : String) : List ℚ :=
  (subjDays t p).dedup.map
    (fun d => (((subjRows t p).filter (fun e => e.jour = d)).length : ℚ))

/-- `moyenne_actions_par_jour`: mean of the per-day counts. -/
def moyenneActionsVal (t : EventTable) (p : String) : ℚ :=
  qMean (jourCounts t p)

/-- `max_actions_par_jour`: max of the per-day counts. -/
def maxActionsVal (t : EventTable) (p : String) : ℚ :=
  lstMax 0 (jourCounts t p)

/-- Sample variance with denominator `n - 1`.  pandas `std()` is the square
root of this quantity; the square root of a rational is irrational in
general, so the embedding carries the variance.  The only facts used about
`std` are (a) when it is `NaN` and (b) that it is a numeric value otherwise,
and those are invariant under taking the square root. -/
def sampleVar (xs : List ℚ) : ℚ :=
  (xs.map (fun x => (x - qMean xs) ^ 2)).sum / ((xs.length : ℚ) - 1)

/-- `variabilite_activite` for one subject: pandas `std()` over the per-day
counts, which is `NaN` (here `none`) on a single data point. -/
def variabiliteVal (t : EventTable) (p : String) : Option ℚ :=
  if (jourCounts t p).length ≤ 1 then none
  else some (sampleVar (jourCounts t p))

/-- `nb_jours_avec_action`: `groupby(pseudo)[jour].nunique()`. -/
def nbJoursAvecActionVal (t : EventTable) (p : String) : ℕ :=
  (subjDays t p).dedup.length

/-- `tempsdiff`: `(jour.max() - jour.min()).days` for one subject. -/
def tempsdiffVal (t : EventTable) (p : String) : ℤ :=
  lstMax 0 (subjDays t p) - lstMin 0 (subjDays t p)

/-- `constance_activite` for one subject: the distinct-active-day count
divided by the day span, where a span of exactly 0 is first replaced by 1
(`res[tempsdiff_jours].replace(0, 1)`). -/
def constanceVal (t : EventTable) (p : String) : ℚ :=
  (nbJoursAvecActionVal t p : ℚ) /
    (if tempsdiffVal t p = 0 then 1 else (tempsdiffVal t p : ℚ))

/-- `semaine_vs_weekend` value: mean of the indicator `weekday >= 5`,
with `weekday = jour % 7` (Monday = 0 at the epoch). -/
def pctWeekendVal (t : EventTable) (p : String) : ℚ :=
  (((subjRows t p).countP (fun e => 5 ≤ e.jour % 7) : ℚ)) /
    ((subjRows t p).length : ℚ)

/-- `periode_moyen_activite` value: per active day, latest minus earliest
event time in minutes, averaged over the subject's active days. -/
def periodeMoyenVal (t : EventTable) (p : String) : ℚ :=
  qMean ((subjDays t p).dedup.map (fun d =>
    let hs := ((subjRows t p).filter (fun e => e.jour = d)).map (fun e => e.heure)
    ((lstMax 0 hs : ℤ) - (lstMin 0 hs : ℤ) : ℚ)))

/-- The hour component of a time of day (`.dt.hour`). -/
def hourOf (e : Event) : ℕ := e.heure / 60

/-- Night bucket `[22:00, 07:00)` on the hour component. -/
def isNuit (h : ℕ) : Prop := h < 7 ∨ 22 ≤ h

/-- Morning bucket `[07:00, 13:00)`. -/
def isMatin (h : ℕ) : Prop := 7 ≤ h ∧ h < 13

/-- Afternoon bucket `[13:00, 18:00)`. -/
def isAprem (h : ℕ) : Prop := 13 ≤ h ∧ h < 18

/-- Evening bucket `[18:00, 22:00)`. -/
def isSoir (h : ℕ) : Prop := 18 ≤ h ∧ h < 22

instance : DecidablePred isNuit := fun _ => inferInstanceAs (Decidable (_ ∨ _))
instance : DecidablePred isMatin := fun _ => inferInstanceAs (Decidable (_ ∧ _))
instance : DecidablePred isAprem := fun _ => inferInstanceAs (Decidable (_ ∧ _))
instance : DecidablePred isSoir := fun _ => inferInstanceAs (Decidable (_ ∧ _))

/-- `pourcentage_nuit` value: mean of the night-bucket indicator. -/
def pctNuitVal (t : EventTable) (p : String) : ℚ :=
  (((subjRows t p).countP (fun e => isNuit (hourOf e)) : ℚ)) /
    ((subjRows t p).length : ℚ)

/-- `pourcentage_matin` value. -/
def pctMatinVal (t : EventTable) (p : String) : ℚ :=
  (((subjRows t p).countP (fun e => isMatin (hourOf e)) : ℚ)) /
    ((subjRows t p).length : ℚ)

/-- `pourcentage_aprem` value. -/
def pctApremVal (t : EventTable) (p : String) : ℚ :=
  (((subjRows t p).countP (fun e => isAprem (hourOf e)) : ℚ)) /
    ((subjRows t p).length : ℚ)

/-- `pourcentage_soir` value. -/
def pctSoirVal (t : EventTable) (p : String) : ℚ :=
  (((subjRows t p).countP (fun e => isSoir (hourOf e)) : ℚ)) /
    ((subjRows t p).length : ℚ)

/-- `nb_composant` value: `groupby(pseudo)[composant].nunique()`. -/
def nbComposantVal (t : EventTable) (p : String) : ℕ :=
  ((subjRows t p).map (fun e => e.composant)).dedup.length

/-- `nb_contexte_gen` value: `groupby(pseudo)[contexte_general].nunique()`. -/
def nbContexteVal (t : EventTable) (p : String) : ℕ :=
  ((subjRows t p).map (fun e => e.contexte_general)).dedup.length

/-- The most frequent value of a list of category labels, ties broken by
the value that sorts first: `groupby` orders groups by sorted key and
`idxmax` returns the first index attaining the maximum. -/
def topCat (vals : List String) : Option String :=
  match sortedKeys vals with
  | [] => none
  | c :: cs => some (cs.foldl
      (fun best v => if vals.count best < vals.count v then v else best) c)

/-- Per-subject count of a given `composant` value (one cell of
`pd.crosstab(df_logs[pseudo], df_logs[composant])`). -/
def composantCount (t : EventTable) (p v : String) : ℕ :=
  ((subjRows t p).filter (fun e => e.composant = v)).length

/-- Per-subject count of a given `contexte_general` value. -/
def contexteCount (t : EventTable) (p v : String) : ℕ :=
  ((subjRows t p).filter (fun e => e.contexte_general = v)).length

/-- Per-subject count of a given `evenement` value. -/
def evenementCount (t : EventTable) (p v : String) : ℕ :=
  ((subjRows t p).filter (fun e => e.evenement = v)).length

/-- The sorted distinct `composant` values (crosstab column labels). -/
def composantKeys (t : EventTable) : List String :=
  sortedKeys (t.rows.map (fun e => e.composant))

/-- The sorted distinct `contexte_general` values. -/
def contexteKeys (t : EventTable) : List String :=
  sortedKeys (t.rows.map (fun e => e.contexte_general))

/-- The sorted distinct `evenement` values. -/
def evenementKeys (t : EventTable) : List String :=
  sortedKeys (t.rows.map (fun e => e.evenement))

/-! ### Aggregator output dataframes and the feature composer -/

/-- A dataframe cell: a number, a category label, or a missing value
(pandas `NaN`). -/
inductive Val where
  | num (q : ℚ)
  | str (s : String)
  | null
deriving Repr, DecidableEq

/-- An aggregator output dataframe: the key column `pseudo` is implicit in
the rows, `cols` are the remaining column names, and each row carries one
`Val` per entry of `cols`. -/
structure Frame where
  cols : List String
  rows : List (String × List Val)
deriving Repr, DecidableEq

/-- The keys (the `pseudo` column) of a frame. -/
def Frame.keys (fr : Frame) : List String := fr.rows.map (fun r => r.1)

/-- Every aggregator of `control.py` groups by `pseudo`, so its output has
one row per distinct subject, in sorted key order. -/
def perSubject (t : EventTable) (cols : List String) (f : String → List Val) :
    Frame :=
  { cols := cols, rows := (pseudos t).map (fun p => (p, f p)) }

/-- `l.merge(r, on = pseudo, how = left)`: for each left row, one output
row per right row with the same key (pandas duplicates the left row when
the right key is not unique), and a single null-padded row when the key is
absent from the right frame. -/
def leftMerge (l r : Frame) : Frame :=
  { cols := l.cols ++ r.cols
    rows := l.rows.flatMap (fun row =>
      let ms := r.rows.filter (fun q => q.1 = row.1)
      if ms.isEmpty then [(row.1, row.2 ++ r.cols.map (fun _ => Val.null))]
      else ms.map (fun q => (row.1, row.2 ++ q.2))) }

/-- `nb_actions`. -/
def nb_actions (t : EventTable) : Frame :=
  perSubject t ["nb_actions"] (fun p => [Val.num (nbActionsVal t p : ℚ)])

/-- `moyenne_actions_par_jour`. -/
def moyenne_actions_par_jour (t : EventTable) : Frame :=
  perSubject t ["moyenne_nb_actions"] (fun p => [Val.num (moyenneActionsVal t p)])

/-- `max_actions_par_jour` (defined in the source, see `creer_df` for its
use or lack thereof). -/
def max_actions_par_jour (t : EventTable) : Frame :=
  perSubject t ["max_nb_actions"] (fun p => [Val.num (maxActionsVal t p)])

/-- `variabilite_activite`: `NaN` (that is `Val.null`) for a subject with a
single active day. -/
def variabilite_activite (t : EventTable) : Frame :=
  perSubject t ["std_actions_par_jour"]
    (fun p => [(variabiliteVal t p).elim Val.null Val.num])

/-- `nb_jours_avec_action`. -/
def nb_jours_avec_action (t : EventTable) : Frame :=
  perSubject t ["nb_jours_avec_action"]
    (fun p => [Val.num (nbJoursAvecActionVal t p : ℚ)])

/-- `tempsdiff`. -/
def tempsdiff (t : EventTable) : Frame :=
  perSubject t ["tempsdiff_jours"] (fun p => [Val.num (tempsdiffVal t p : ℚ)])

/-- `constance_activite`: the source merges the `nb_jours_avec_action` and
`tempsdiff` frames (both keyed on the same subject list) and divides; that
collapses to the per-subject value `constanceVal`. -/
def constance_activite (t : EventTable) : Frame :=
  perSubject t ["constance_activite"] (fun p => [Val.num (constanceVal t p)])

/-- `semaine_vs_weekend` (output frame). -/
def semaine_vs_weekend (t : EventTable) : Frame :=
  perSubject t ["pct_weekend"] (fun p => [Val.num (pctWeekendVal t p)])

/-- `periode_moyen_activite`. -/
def periode_moyen_activite (t : EventTable) : Frame :=
  perSubject t ["activite_moyenne_par_jour_min"]
    (fun p => [Val.num (periodeMoyenVal t p)])

/-- `pourcentage_nuit` (output frame). -/
def pourcentage_nuit (t : EventTable) : Frame :=
  perSubject t ["pourcentage_activite_nuit"] (fun p => [Val.num (pctNuitVal t p)])

/-- `pourcentage_matin` (output frame). -/
def pourcentage_matin (t : EventTable) : Frame :=
  perSubject t ["pourcentage_activite_matin"] (fun p => [Val.num (pctMatinVal t p)])

/-- `pourcentage_aprem` (output frame). -/
def pourcentage_aprem (t : EventTable) : Frame :=
  perSubject t ["pourcentage_activite_aprem"] (fun p => [Val.num (pctApremVal t p)])

/-- `pourcentage_soir` (output frame). -/
def pourcentage_soir (t : EventTable) : Frame :=
  perSubject t ["pourcentage_activite_soir"] (fun p => [Val.num (pctSoirVal t p)])

/-- `nb_composant`. -/
def nb_composant (t : EventTable) : Frame :=
  perSubject t ["nb_composant"] (fun p => [Val.num (nbComposantVal t p : ℚ)])

/-- `nb_contexte_gen`. -/
def nb_contexte_gen (t : EventTable) : Frame :=
  perSubject t ["nb_contexte"] (fun p => [Val.num (nbContexteVal t p : ℚ)])

/-- `nb_chaque_composant`: the crosstab of `pseudo` against `composant`,
columns renamed with the `composant_` prefix. -/
def nb_chaque_composant (t : EventTable) : Frame :=
  perSubject t ((composantKeys t).map (fun v => "composant_" ++ v))
    (fun p => (composantKeys t).map (fun v => Val.num (composantCount t p v : ℚ)))

/-- `nb_chaque_contexte`. -/
def nb_chaque_contexte (t : EventTable) : Frame :=
  perSubject t ((contexteKeys t).map (fun v => "contexte_" ++ v))
    (fun p => (contexteKeys t).map (fun v => Val.num (contexteCount t p v : ℚ)))

/-- `nb_chaque_evenement`. -/
def nb_chaque_evenement (t : EventTable) : Frame :=
  perSubject t ((evenementKeys t).map (fun v => "evenement_" ++ v))
    (fun p => (evenementKeys t).map (fun v => Val.num (evenementCount t p v : ℚ)))

/-- `top_composant`. -/
def top_composant (t : EventTable) : Frame :=
  perSubject t ["top_composant"]
    (fun p => [(topCat ((subjRows t p).map (fun e => e.composant))).elim Val.null Val.str])

/-- `top_contexte`. -/
def top_contexte (t : EventTable) : Frame :=
  perSubject t ["top_contexte"]
    (fun p => [(topCat ((subjRows t p).map (fun e => e.contexte_general))).elim Val.null Val.str])

/-- `top_evenement`. -/
def top_evenement (t : EventTable) : Frame :=
  perSubject t ["top_evenement"]
    (fun p => [(topCat ((subjRows t p).map (fun e => e.evenement))).elim Val.null Val.str])

/-! ### In-place mutation of the log dataframe

`semaine_vs_weekend` and the four `pourcentage_*` functions assign helper
columns to their argument (`df_logs[c] = ...`) before grouping.  The
functions below give the state of the log dataframe after such a call. -/

/-- Adding a dataframe column in place (idempotent, as in pandas). -/
def addCol (t : EventTable) (c : String) : EventTable :=
  if c ∈ t.extraCols then t else { t with extraCols := t.extraCols ++ [c] }

/-- The log dataframe after `semaine_vs_weekend(df_logs)`: the helper
columns `jour_semaine` and `is_weekend` have been assigned in place. -/
def semaine_vs_weekend_effect (t : EventTable) : EventTable :=
  addCol (addCol t "jour_semaine") "is_weekend"

/-- The log dataframe after `pourcentage_nuit(df_logs)`. -/
def pourcentage_nuit_effect (t : EventTable) : EventTable :=
  addCol (addCol t "heure_seule") "pourcentage_nuit"

/-- The log dataframe after `pourcentage_matin(df_logs)`. -/
def pourcentage_matin_effect (t : EventTable) : EventTable :=
  addCol (addCol t "heure_seule") "pourcentage_matin"

/-- The log dataframe after `pourcentage_aprem(df_logs)`. -/
def pourcentage_aprem_effect (t : EventTable) : EventTable :=
  addCol (addCol t "heure_seule") "pourcentage_aprem"

/-- The log dataframe after `pourcentage_soir(df_logs)`. -/
def pourcentage_soir_effect (t : EventTable) : EventTable :=
  addCol (addCol t "heure_seule") "pourcentage_soir"

/-- `creer_df`: the feature composer.  Starts from `nb_actions` and left
joins the other aggregator outputs in the source's order. -/
def creer_df (t : EventTable) : Frame :=
  let df := nb_actions t
  let df := leftMerge df (moyenne_actions_par_jour t)
  let df := leftMerge df (nb_jours_avec_action t)
  let df := leftMerge df (variabilite_activite t)
  let df := leftMerge df (tempsdiff t)
  let df := leftMerge df (constance_activite t)
  let df := leftMerge df (periode_moyen_activite t)
  let df := leftMerge df (pourcentage_nuit t)
  let df := leftMerge df (pourcentage_matin t)
  let df := leftMerge df (pourcentage_aprem t)
  let df := leftMerge df (pourcentage_soir t)
  let df := leftMerge df (semaine_vs_weekend t)
  let df := leftMerge df (nb_contexte_gen t)
  let df := leftMerge df (nb_composant t)
  let df := leftMerge df (nb_chaque_contexte t)
  let df := leftMerge df (top_contexte t)
  let df := leftMerge df (nb_chaque_composant t)
  let df := leftMerge df (top_composant t)
  let df := leftMerge df (nb_chaque_evenement t)
  leftMerge df (top_evenement t)

/-! ### Closed form of the composed wide table -/

theorem filter_keyed (g : String → List Val) :
    ∀ (ps : List String) (p : String), ps.Nodup → p ∈ ps →
      ((ps.map (fun q => (q, g q))).filter (fun r => r.1 = p)) = [(p, g p)] := by
  intro ps
  induction ps with
  | nil => intro p _ hp; cases hp
  | cons a l ih =>
    intro p hnd hp
    rcases List.mem_cons.mp hp with h | h
    · subst h
      have hnotin : p ∉ l := (List.nodup_cons.mp hnd).1
      have hnil : (l.map (fun q => (q, g q))).filter (fun r => r.1 = p) = [] := by
        rw [List.filter_eq_nil_iff]
        intro r hr
        rcases List.mem_map.mp hr with ⟨q, hq, rfl⟩
        simp only [decide_eq_true_eq]
        intro he
        exact hnotin (he ▸ hq)
      simp [hnil]
    · have hne : a ≠ p := by
        rintro rfl
        exact (List.nodup_cons.mp hnd).1 h
      have := ih p (List.nodup_cons.mp hnd).2 h
      simp [List.filter_cons, hne, this]

theorem leftMerge_perSubject (t : EventTable) (c1 c2 : List String)
    (f g : String → List Val) :
    leftMerge (perSubject t c1 f) (perSubject t c2 g)
      = perSubject t (c1 ++ c2) (fun p => f p ++ g p) := by
  unfold leftMerge perSubject
  simp only [Frame.mk.injEq, true_and]
  have : ∀ ps : List String, (∀ p ∈ ps, p ∈ pseudos t) →
      ((ps.map (fun p => (p, f p))).flatMap (fun row =>
        let ms := ((pseudos t).map (fun q => (q, g q))).filter (fun q => q.1 = row.1)
        if ms.isEmpty then [(row.1, row.2 ++ c2.map (fun _ => Val.null))]
        else ms.map (fun q => (row.1, row.2 ++ q.2)))) =
      ps.map (fun p => (p, f p ++ g p)) := by
    intro ps
    induction ps with
    | nil => intro _; rfl
    | cons a l ih =>
      intro hsub
      have ha : a ∈ pseudos t := hsub a (List.mem_cons_self a l)
      have hfil := filter_keyed g (pseudos t) a (pseudos_nodup t) ha
      simp only [List.map_cons, List.flatMap_cons, hfil]
      rw [ih (fun p hp => hsub p (List.mem_cons_of_mem a hp))]
      simp
  exact this (pseudos t) (fun p hp => hp)

/-- The values of the wide-table row of subject `p`, in column order. -/
def wideValsRow (t : EventTable) (p : String) : List Val :=
  Val.num (nbActionsVal t p : ℚ) ::
  Val.num (moyenneActionsVal t p) ::
  Val.num (nbJoursAvecActionVal t p : ℚ) ::
  (variabiliteVal t p).elim Val.null Val.num ::
  Val.num (tempsdiffVal t p : ℚ) ::
  Val.num (constanceVal t p) ::
  Val.num (periodeMoyenVal t p) ::
  Val.num (pctNuitVal t p) ::
  Val.num (pctMatinVal t p) ::
  Val.num (pctApremVal t p) ::
  Val.num (pctSoirVal t p) ::
  Val.num (pctWeekendVal t p) ::
  Val.num (nbContexteVal t p : ℚ) ::
  Val.num (nbComposantVal t p : ℚ) ::
  ((contexteKeys t).map (fun v => Val.num (contexteCount t p v : ℚ)) ++
    ((topCat ((subjRows t p).map (fun e => e.contexte_general))).elim Val.null Val.str ::
      ((composantKeys t).map (fun v => Val.num (composantCount t p v : ℚ)) ++
        ((topCat ((subjRows t p).map (fun e => e.composant))).elim Val.null Val.str ::
          ((evenementKeys t).map (fun v => Val.num (evenementCount t p v : ℚ)) ++
            [(topCat ((subjRows t p).map (fun e => e.evenement))).elim Val.null Val.str])))))

/-- The column names of the wide table, in merge order. -/
def wideColNames (t : EventTable) : List String :=
  "nb_actions" :: "moyenne_nb_actions" :: "nb_jours_avec_action" ::
  "std_actions_par_jour" :: "tempsdiff_jours" :: "constance_activite" ::
  "activite_moyenne_par_jour_min" :: "pourcentage_activite_nuit" ::
  "pourcentage_activite_matin" :: "pourcentage_activite_aprem" ::
  "pourcentage_activite_soir" :: "pct_weekend" :: "nb_contexte" ::
  "nb_composant" ::
  ((contexteKeys t).map (fun v => "contexte_" ++ v) ++
    ("top_contexte" ::
      ((composantKeys t).map (fun v => "composant_" ++ v) ++
        ("top_composant" ::
          ((evenementKeys t).map (fun v => "evenement_" ++ v) ++
            ["top_evenement"])))))

theorem creer_df_eq (t : EventTable) :
    creer_df t = perSubject t (wideColNames t) (wideValsRow t) := by
  unfold creer_df nb_actions moyenne_actions_par_jour nb_jours_avec_action
    variabilite_activite tempsdiff constance_activite periode_moyen_activite
    pourcentage_nuit pourcentage_matin pourcentage_aprem pourcentage_soir
    semaine_vs_weekend nb_contexte_gen nb_composant nb_chaque_contexte
    top_contexte nb_chaque_composant top_composant nb_chaque_evenement
    top_evenement
  simp only [leftMerge_perSubject]
  unfold perSubject wideColNames wideValsRow
  simp

/-! ### Cell access in a frame -/

/-- The row of the first entry with key `p` (keys are unique in every frame
built here, so this is the subject's row). -/
def rowFor : List (String × List Val) → String → Option (List Val)
  | [], _ => none
  | r :: rest, p => if r.1 = p then some r.2 else rowFor rest p

/-- The position of a column name in a column list. -/
def colIdx : List String → String → Option ℕ
  | [], _ => none
  | n :: rest, c => if n = c then some 0 else (colIdx rest c).map (fun i => i + 1)

/-- The cell of subject `p` in column `c`. -/
def Frame.cell (fr : Frame) (p c : String) : Option Val :=
  match rowFor fr.rows p, colIdx fr.cols c with
  | some vs, some i => vs[i]?
  | _, _ => none

theorem rowFor_map (f : String → List Val) :
    ∀ (ps : List String) (p : String), p ∈ ps →
      rowFor (ps.map (fun q => (q, f q))) p = some (f p) := by
  intro ps
  induction ps with
  | nil => intro p hp; cases hp
  | cons a l ih =>
    intro p hp
    rcases List.mem_cons.mp hp with h | h
    · subst h; simp [rowFor]
    · by_cases ha : a = p
      · subst ha; simp [rowFor]
      · simp only [List.map_cons, rowFor, if_neg ha]
        exact ih p h

/-! ### The post-processing stage (`df_transformer` inputs)

A feature dataframe (the wide table, or a train/test split of it) is
embedded as an `FTable`:

* `idx` is the pandas row index: the row labels, in row order.  The wide
  table built by `creer_df` has the default `RangeIndex` `0, 1, ..., n-1`;
  a split produced by `train_test_split` keeps the original labels of the
  sampled rows, so its index is a shuffled sublist of the original one.
* `ncols` are the numeric (`float64`/`int64`) columns, as name/values
  pairs, values in row order; `ccols` are the `object`-typed (categorical)
  columns.  The key column `pseudo`, when present, is a categorical
  column; `scaling` below follows the source in excluding it, so `ncols`
  are exactly the columns the scaler touches. -/
structure FTable where
  idx : List ℕ
  ncols : List (String × List ℚ)
  ccols : List (String × List String)
deriving Repr, DecidableEq

/-- Centered second moment of a column (sum of squared deviations from the
mean, without the `1/(n-1)` factor). -/
def qVar (xs : List ℚ) : ℚ :=
  (xs.map (fun x => (x - qMean xs) ^ 2)).sum

/-- Centered mixed moment of two columns. -/
def qCov (xs ys : List ℚ) : ℚ :=
  ((xs.zip ys).map (fun r => (r.1 - qMean xs) * (r.2 - qMean ys))).sum

/-- `abs(corr(xs, ys)) == 1`, rendered in exact arithmetic: the Pearson
coefficient is `qCov / sqrt (qVar * qVar)` (the `1/(n-1)` factors cancel),
so its magnitude is exactly 1 iff `qCov ^ 2 = qVar xs * qVar ys` with both
variances nonzero.  A zero variance makes the source's coefficient `NaN`,
for which `abs(...) == 1` is false, hence the nonzero conjuncts. -/
def perfectCorr (xs ys : List ℚ) : Prop :=
  qVar xs ≠ 0 ∧ qVar ys ≠ 0 ∧ qCov xs ys ^ 2 = qVar xs * qVar ys

instance (xs ys : List ℚ) : Decidable (perfectCorr xs ys) :=
  inferInstanceAs (Decidable (_ ∧ _ ∧ _))

/-- The values of numeric column `i` (`[]` when out of range). -/
def colVals (df : FTable) (i : ℕ) : List ℚ :=
  ((df.ncols[i]?).map (fun c => c.2)).getD []

/-- The column indices marked for removal by
`enlever_correlations_complets`: the upper-triangular scan compares column
`i` against every `j < i` and marks `i` when the correlation magnitude is
exactly 1. -/
def droppedIdx (df : FTable) : List ℕ :=
  (List.range df.ncols.length).filter (fun i =>
    (List.range i).any (fun j => decide (perfectCorr (colVals df i) (colVals df j))))

/-- The indices that survive the scan. -/
def retainedIdx (df : FTable) : List ℕ :=
  (List.range df.ncols.length).filter (fun i =>
    !((List.range i).any (fun j => decide (perfectCorr (colVals df i) (colVals df j)))))

/-- `enlever_correlations_complets`: drops every marked numeric column
(the wide table's column names are pairwise distinct, so dropping by name
equals dropping by position); non-numeric columns are untouched. -/
def enlever_correlations_complets (df : FTable) : FTable :=
  { df with ncols := (retainedIdx df).filterMap (fun i => df.ncols[i]?) }

/-- The indicator column of value `v` for a categorical column with values
`vals` (one column of `OneHotEncoder.fit_transform`). -/
def oneHotCol (vals : List String) (v : String) : List ℚ :=
  vals.map (fun x => if x = v then 1 else 0)

/-- The result of `encodage`: the original index with only numeric columns,
where a cell can be missing (`NaN`, here `none`) when the index join
misses. -/
structure EncTable where
  idx : List ℕ
  ncols : List (String × List (Option ℚ))
deriving Repr, DecidableEq

/-- `encodage`: every `object` column is one-hot encoded with the sorted
distinct values observed in the same dataframe (`OneHotEncoder` fit on the
data being transformed), producing columns named `col_value`.  The source
then evaluates `df.drop(columns = categorical_cols).join(df_encoded)`:
`df_encoded` is a fresh dataframe with the default index `0..n-1`, and
`join` aligns on index labels, so the indicator values attached to the row
with label `L` are those computed for *position* `L` of the encoder input
— `none` (a `NaN` cell) when `L` is not a valid position. -/
def encodage (df : FTable) : EncTable :=
  { idx := df.idx
    ncols := df.ncols.map (fun c => (c.1, c.2.map some))
      ++ df.ccols.flatMap (fun c => (sortedKeys c.2).map (fun v =>
          (c.1 ++ "_" ++ v, df.idx.map (fun L => (oneHotCol c.2 v)[L]?)))) }

/-- The scale denominator of `MinMaxScaler`: `max - min`, with a zero
range replaced by 1 (sklearn `_handle_zeros_in_scale`). -/
def mmSpan (xs : List ℚ) : ℚ :=
  if lstMax 0 xs - lstMin 0 xs = 0 then 1 else lstMax 0 xs - lstMin 0 xs

/-- `MinMaxScaler.fit_transform` on one column: `(x - min) / (max - min)`
with the guarded denominator; the default feature range `[0, 1]` adds
nothing. -/
def minmaxScale (xs : List ℚ) : List ℚ :=
  xs.map (fun x => (x - lstMin 0 xs) / mmSpan xs)

/-- `scaling`: rescales every column except the key `pseudo`; in this
embedding `ncols` are exactly those columns. -/
def scaling (df : FTable) : FTable :=
  { df with ncols := df.ncols.map (fun c => (c.1, minmaxScale c.2)) }

/-- The position of the first maximum of a list (`argmax`). -/
def listArgmax (l : List ℚ) : ℕ :=
  l.findIdx (fun x => l.all (fun y => y ≤ x))

/-! ### Shared helper lemmas for the claims -/

theorem contexteCol_ne (v : String) : "contexte_" ++ v ≠ "max_nb_actions" := by
  intro h
  have h2 : (some 'c' : Option Char) = some 'm' :=
    congrArg List.head? (congrArg String.data h)
  exact absurd h2 (by decide)

theorem composantCol_ne (v : String) : "composant_" ++ v ≠ "max_nb_actions" := by
  intro h
  have h2 : (some 'c' : Option Char) = some 'm' :=
    congrArg List.head? (congrArg String.data h)
  exact absurd h2 (by decide)

theorem evenementCol_ne (v : String) : "evenement_" ++ v ≠ "max_nb_actions" := by
  intro h
  have h2 : (some 'e' : Option Char) = some 'm' :=
    congrArg List.head? (congrArg String.data h)
  exact absurd h2 (by decide)

theorem creer_df_keys (t : EventTable) : (creer_df t).keys = pseudos t := by
  rw [creer_df_eq]
  unfold Frame.keys perSubject
  simp [Function.comp_def]

/-- A one-subject, one-event log used as concrete input. -/
def exOne : EventTable :=
  { rows := [{ pseudo := "a", jour := 0, heure := 600, composant := "c",
               contexte_general := "g", evenement := "v" }]
    extraCols := [] }

/-- C6: for every input event table, the wide feature table
has exactly one row per distinct subject of the event table (none
duplicated, none dropped), and its row count equals the row count of the
`nb_actions` output. -/
theorem c6_one_row_per_subject (t : EventTable) :
    (creer_df t).keys = pseudos t ∧
    (creer_df t).keys.Nodup ∧
    (creer_df t).rows.length = (nb_actions t).rows.length ∧
    (∀ e ∈ t.rows, e.pseudo ∈ (creer_df t).keys) ∧
    (∀ p ∈ (creer_df t).keys, ∃ e ∈ t.rows, e.pseudo = p) := by
  have hk := creer_df_keys t
  refine ⟨hk, ?_, ?_, ?_, ?_⟩
  · rw [hk]; exact pseudos_nodup t
  · rw [creer_df_eq]
    unfold perSubject nb_actions perSubject
    simp
  · intro e he
    rw [hk]
    exact mem_pseudos.mpr ⟨e, he, rfl⟩
  · intro p hp
    rw [hk] at hp
    exact mem_pseudos.mp hp

/-- C2, counterexample: the wide table of a concrete event table does not
contain the `max_nb_actions` column, because `creer_df` never joins the
output of `max_actions_par_jour`. -/
theorem c2_counterexample : "max_nb_actions" ∉ (creer_df exOne).cols := by
  rw [creer_df_eq]
  unfold perSubject
  decide

/-- C2, amended: `creer_df` left-joins onto the subject universe the
output of every other aggregator except `max_actions_par_jour`; the
wide table has the columns of all the joined aggregators, but (for every
input) no `max_nb_actions` column. -/
theorem c2_joined_columns (t : EventTable) :
    "moyenne_nb_actions" ∈ (creer_df t).cols ∧
    "nb_jours_avec_action" ∈ (creer_df t).cols ∧
    "std_actions_par_jour" ∈ (creer_df t).cols ∧
    "tempsdiff_jours" ∈ (creer_df t).cols ∧
    "constance_activite" ∈ (creer_df t).cols ∧
    "activite_moyenne_par_jour_min" ∈ (creer_df t).cols ∧
    "pourcentage_activite_nuit" ∈ (creer_df t).cols ∧
    "pourcentage_activite_matin" ∈ (creer_df t).cols ∧
    "pourcentage_activite_aprem" ∈ (creer_df t).cols ∧
    "pourcentage_activite_soir" ∈ (creer_df t).cols ∧
    "pct_weekend" ∈ (creer_df t).cols ∧
    "nb_contexte" ∈ (creer_df t).cols ∧
    "nb_composant" ∈ (creer_df t).cols ∧
    "top_contexte" ∈ (creer_df t).cols ∧
    "top_composant" ∈ (creer_df t).cols ∧
    "top_evenement" ∈ (creer_df t).cols ∧
    (∀ v ∈ contexteKeys t, "contexte_" ++ v ∈ (creer_df t).cols) ∧
    (∀ v ∈ composantKeys t, "composant_" ++ v ∈ (creer_df t).cols) ∧
    (∀ v ∈ evenementKeys t, "evenement_" ++ v ∈ (creer_df t).cols) ∧
    "max_nb_actions" ∉ (creer_df t).cols := by
  rw [creer_df_eq]
  unfold perSubject wideColNames
  repeat' apply And.intro
  any_goals solve | simp
  · intro v hv
    iterate 14 refine List.mem_cons_of_mem _ ?_
    exact List.mem_append_left _ (List.mem_map_of_mem _ hv)
  · intro v hv
    iterate 14 refine List.mem_cons_of_mem _ ?_
    refine List.mem_append_right _ (List.mem_cons_of_mem _ ?_)
    exact List.mem_append_left _ (List.mem_map_of_mem _ hv)
  · intro v hv
    iterate 14 refine List.mem_cons_of_mem _ ?_
    refine List.mem_append_right _ (List.mem_cons_of_mem _ ?_)
    refine List.mem_append_right _ (List.mem_cons_of_mem _ ?_)
    exact List.mem_append_left _ (List.mem_map_of_mem _ hv)
  · intro hmem
    iterate 14
      rcases List.mem_cons.mp hmem with he | hmem
      · exact absurd he (by decide)
    rcases List.mem_append.mp hmem with h | hmem
    · rcases List.mem_map.mp h with ⟨v, _, hv⟩
      exact contexteCol_ne v hv
    rcases List.mem_cons.mp hmem with he | hmem
    · exact absurd he (by decide)
    rcases List.mem_append.mp hmem with h | hmem
    · rcases List.mem_map.mp h with ⟨v, _, hv⟩
      exact composantCol_ne v hv
    rcases List.mem_cons.mp hmem with he | hmem
    · exact absurd he (by decide)
    rcases List.mem_append.mp hmem with h | hmem
    · rcases List.mem_map.mp h with ⟨v, _, hv⟩
      exact evenementCol_ne v hv
    · exact absurd (List.mem_singleton.mp hmem) (by decide)

/-- C10: for a subject with exactly one active day, the sample standard
deviation of the per-day counts is `NaN` (`none`), and the wide table built
by `creer_df` carries that subject's `std_actions_par_jour` cell as a
missing value (`Val.null`), not as a number (in particular not 0). -/
theorem c10_std_nan_propagates (t : EventTable) (p : String)
    (hp : p ∈ pseudos t) (h1 : nbJoursAvecActionVal t p = 1) :
    variabiliteVal t p = none ∧
    (creer_df t).cell p "std_actions_par_jour" = some Val.null := by
  have hvar : variabiliteVal t p = none := by
    unfold variabiliteVal
    rw [if_pos]
    unfold jourCounts
    rw [List.length_map]
    unfold nbJoursAvecActionVal at h1
    omega
  refine ⟨hvar, ?_⟩
  rw [creer_df_eq]
  have hr : rowFor (perSubject t (wideColNames t) (wideValsRow t)).rows p
      = some (wideValsRow t p) := rowFor_map _ _ _ hp
  have hc : colIdx (perSubject t (wideColNames t) (wideValsRow t)).cols
      "std_actions_par_jour" = some 3 := rfl
  unfold Frame.cell
  rw [hr, hc]
  unfold wideValsRow
  simp [hvar]

/-- C10 witness: a concrete one-event log. -/
theorem c10_std_nan_propagates_witness :
    "a" ∈ pseudos exOne ∧ nbJoursAvecActionVal exOne "a" = 1 ∧
    (variabiliteVal exOne "a" = none ∧
      (creer_df exOne).cell "a" "std_actions_par_jour" = some Val.null) :=
  ⟨by decide, by decide, c10_std_nan_propagates exOne "a" (by decide) (by decide)⟩

/-- C3, counterexample: `semaine_vs_weekend` does not leave its input
dataframe unchanged — it adds the helper columns `jour_semaine` and
`is_weekend` to it in place. -/
theorem c3_counterexample : semaine_vs_weekend_effect exOne ≠ exOne := by
  decide

theorem creer_df_rows_only (r : List Event) (e1 e2 : List String) :
    creer_df ⟨r, e1⟩ = creer_df ⟨r, e2⟩ := rfl

theorem creer_df_ext {t1 t2 : EventTable} (h : t1.rows = t2.rows) :
    creer_df t1 = creer_df t2 := by
  cases t1 with
  | mk r1 x1 =>
    cases t2 with
    | mk r2 x2 =>
      cases h
      exact creer_df_rows_only r1 x1 x2

theorem addCol_rows (t : EventTable) (c : String) : (addCol t c).rows = t.rows := by
  unfold addCol
  split <;> rfl

/-- C3, amended: `semaine_vs_weekend` and the four time-of-day bucket
functions do mutate their input — each adds its helper columns to the log
dataframe in place — but they never touch the event rows themselves, so
every aggregator (hence the whole wide table) computes the same result
whether or not the mutating aggregators ran before it: evaluation order
still does not affect any aggregator output. -/
theorem c3_mutation_and_order_independence (t : EventTable) :
    (semaine_vs_weekend_effect t).rows = t.rows ∧
    (pourcentage_nuit_effect t).rows = t.rows ∧
    (pourcentage_matin_effect t).rows = t.rows ∧
    (pourcentage_aprem_effect t).rows = t.rows ∧
    (pourcentage_soir_effect t).rows = t.rows ∧
    creer_df (semaine_vs_weekend_effect t) = creer_df t ∧
    creer_df (pourcentage_nuit_effect t) = creer_df t ∧
    creer_df (pourcentage_matin_effect t) = creer_df t ∧
    creer_df (pourcentage_aprem_effect t) = creer_df t ∧
    creer_df (pourcentage_soir_effect t) = creer_df t := by
  have h1 : (semaine_vs_weekend_effect t).rows = t.rows := by
    unfold semaine_vs_weekend_effect
    rw [addCol_rows, addCol_rows]
  have h2 : (pourcentage_nuit_effect t).rows = t.rows := by
    unfold pourcentage_nuit_effect
    rw [addCol_rows, addCol_rows]
  have h3 : (pourcentage_matin_effect t).rows = t.rows := by
    unfold pourcentage_matin_effect
    rw [addCol_rows, addCol_rows]
  have h4 : (pourcentage_aprem_effect t).rows = t.rows := by
    unfold pourcentage_aprem_effect
    rw [addCol_rows, addCol_rows]
  have h5 : (pourcentage_soir_effect t).rows = t.rows := by
    unfold pourcentage_soir_effect
    rw [addCol_rows, addCol_rows]
  exact ⟨h1, h2, h3, h4, h5, creer_df_ext h1, creer_df_ext h2,
    creer_df_ext h3, creer_df_ext h4, creer_df_ext h5⟩

/-- The distinct values of a nonempty integer list all lie in the closed
interval between its minimum and maximum, so there are at most
`max - min + 1` of them. -/
theorem dedup_length_le_span (l : List ℤ) (hl : l ≠ []) :
    (l.dedup.length : ℤ) ≤ lstMax 0 l - lstMin 0 l + 1 := by
  have hnd : l.dedup.Nodup := l.nodup_dedup
  have hsub : l.dedup.toFinset ⊆ Finset.Icc (lstMin 0 l) (lstMax 0 l) := by
    intro x hx
    rw [List.mem_toFinset, List.mem_dedup] at hx
    exact Finset.mem_Icc.mpr ⟨lstMin_le 0 hx, le_lstMax 0 hx⟩
  have hcard : l.dedup.toFinset.card = l.dedup.length :=
    List.toFinset_card_of_nodup hnd
  have h2 : l.dedup.toFinset.card ≤ (Finset.Icc (lstMin 0 l) (lstMax 0 l)).card :=
    Finset.card_le_card hsub
  have h3 := Int.card_Icc (lstMin 0 l) (lstMax 0 l)
  have hmm : lstMin 0 l ≤ lstMax 0 l := lstMin_le 0 (lstMax_mem 0 hl)
  rw [hcard, h3] at h2
  omega

theorem nbJours_pos {t : EventTable} {p : String} (hp : p ∈ pseudos t) :
    0 < nbJoursAvecActionVal t p := by
  unfold nbJoursAvecActionVal
  rw [List.length_pos]
  intro hnil
  exact subjDays_ne_nil hp ((List.dedup_eq_nil _).mp hnil)

/-- A two-day, one-subject log: subject `a` acts on two consecutive
days, so the active-day count is 2 while the day span is 1. -/
def exTwoDays : EventTable :=
  { rows := [{ pseudo := "a", jour := 0, heure := 600, composant := "c",
               contexte_general := "g", evenement := "v" },
             { pseudo := "a", jour := 1, heure := 660, composant := "c",
               contexte_general := "g", evenement := "v" }]
    extraCols := [] }

/-- C9: for every subject with at least one event, the distinct-active-day
count is at most the whole-day span plus one. -/
theorem c9_active_days_le_span (t : EventTable) (p : String)
    (hp : p ∈ pseudos t) :
    (nbJoursAvecActionVal t p : ℤ) ≤ tempsdiffVal t p + 1 := by
  have h := dedup_length_le_span (subjDays t p) (subjDays_ne_nil hp)
  unfold nbJoursAvecActionVal tempsdiffVal
  exact h

/-- C9 witness: subject `a` of the two-day log has 2 active days and a
span of 1. -/
theorem c9_active_days_le_span_witness :
    "a" ∈ pseudos exTwoDays ∧
    (nbJoursAvecActionVal exTwoDays "a" : ℤ) ≤ tempsdiffVal exTwoDays "a" + 1 :=
  ⟨by decide, c9_active_days_le_span exTwoDays "a" (by decide)⟩

/-- C1, counterexample: for the two-day log the span is positive but the
constancy is 2, outside `(0, 1]` — the distinct-active-day count may
exceed the day span by one, so the quotient may exceed 1. -/
theorem c1_counterexample :
    0 < tempsdiffVal exTwoDays "a" ∧ constanceVal exTwoDays "a" = 2 ∧
    ¬ constanceVal exTwoDays "a" ≤ 1 := by
  have h1 : nbJoursAvecActionVal exTwoDays "a" = 2 := by decide
  have h2 : tempsdiffVal exTwoDays "a" = 1 := by decide
  have h3 : constanceVal exTwoDays "a" = 2 := by
    unfold constanceVal
    rw [h1, h2]
    norm_num
  refine ⟨by rw [h2]; norm_num, h3, by rw [h3]; norm_num⟩

/-- C1, amended: `constance_activite` is the distinct-active-day count
divided by the day span with a zero span replaced by 1; when the span is
positive the value lies in `(0, (span + 1) / span]` (which exceeds 1 when
the subject is active on more days than the span, up to 2), and when the
span is 0 it equals the active-day count, which is then necessarily 1. -/
theorem c1_constance_bounds (t : EventTable) (p : String)
    (hp : p ∈ pseudos t) :
    (0 < tempsdiffVal t p →
      0 < constanceVal t p ∧
      constanceVal t p ≤ ((tempsdiffVal t p : ℚ) + 1) / (tempsdiffVal t p : ℚ)) ∧
    (tempsdiffVal t p = 0 →
      constanceVal t p = (nbJoursAvecActionVal t p : ℚ) ∧
      nbJoursAvecActionVal t p = 1) := by
  constructor
  · intro hpos
    have hne : tempsdiffVal t p ≠ 0 := ne_of_gt hpos
    have hQ : (0 : ℚ) < (tempsdiffVal t p : ℚ) := by exact_mod_cast hpos
    unfold constanceVal
    rw [if_neg hne]
    constructor
    · apply div_pos _ hQ
      exact_mod_cast nbJours_pos hp
    · have h' : (nbJoursAvecActionVal t p : ℤ) ≤ tempsdiffVal t p + 1 :=
        dedup_length_le_span (subjDays t p) (subjDays_ne_nil hp)
      have hle : (nbJoursAvecActionVal t p : ℚ) ≤ (tempsdiffVal t p : ℚ) + 1 := by
        exact_mod_cast h'
      exact div_le_div_of_nonneg_right hle hQ.le
  · intro hz
    have h := dedup_length_le_span (subjDays t p) (subjDays_ne_nil hp)
    have hpos := nbJours_pos hp
    have h1 : nbJoursAvecActionVal t p = 1 := by
      unfold tempsdiffVal at hz
      unfold nbJoursAvecActionVal at hpos ⊢
      omega
    refine ⟨?_, h1⟩
    unfold constanceVal
    rw [if_pos hz, div_one]

/-- C1 witness: the two-day log has positive span, and the amended bounds
hold there. -/
theorem c1_constance_bounds_witness :
    "a" ∈ pseudos exTwoDays ∧
    ((0 < tempsdiffVal exTwoDays "a" →
      0 < constanceVal exTwoDays "a" ∧
      constanceVal exTwoDays "a" ≤
        ((tempsdiffVal exTwoDays "a" : ℚ) + 1) / (tempsdiffVal exTwoDays "a" : ℚ)) ∧
    (tempsdiffVal exTwoDays "a" = 0 →
      constanceVal exTwoDays "a" = (nbJoursAvecActionVal exTwoDays "a" : ℚ) ∧
      nbJoursAvecActionVal exTwoDays "a" = 1)) :=
  ⟨by decide, c1_constance_bounds exTwoDays "a" (by decide)⟩

theorem bucket_indicator (h : ℕ) :
    (if isNuit h then (1 : ℕ) else 0) + (if isMatin h then 1 else 0) +
      (if isAprem h then 1 else 0) + (if isSoir h then 1 else 0) = 1 := by
  unfold isNuit isMatin isAprem isSoir
  split_ifs <;> omega

theorem countP_buckets (l : List Event) :
    l.countP (fun e => isNuit (hourOf e)) + l.countP (fun e => isMatin (hourOf e)) +
      l.countP (fun e => isAprem (hourOf e)) + l.countP (fun e => isSoir (hourOf e))
      = l.length := by
  induction l with
  | nil => rfl
  | cons a l ih =>
    simp only [List.countP_cons, List.length_cons, decide_eq_true_eq]
    have hin := bucket_indicator (hourOf a)
    split_ifs at hin ⊢ <;> omega

/-- A one-subject log whose events happen at hours 23 and 2 (night). -/
def exNight : EventTable :=
  { rows := [{ pseudo := "n", jour := 0, heure := 1380, composant := "c",
               contexte_general := "g", evenement := "v" },
             { pseudo := "n", jour := 0, heure := 120, composant := "c",
               contexte_general := "g", evenement := "v" }]
    extraCols := [] }

/-- C8: the four time-of-day bucket fractions of a subject with at least
one event sum to exactly 1, the buckets being exhaustive and mutually
exclusive on the hour component; and a subject all of whose events fall in
the night bucket (for instance only at hours 23 and 2) has night fraction
1 and the other three fractions 0. -/
theorem c8_bucket_fractions_sum (t : EventTable) (p : String)
    (hp : p ∈ pseudos t) :
    pctNuitVal t p + pctMatinVal t p + pctApremVal t p + pctSoirVal t p = 1 ∧
    ((∀ e ∈ subjRows t p, isNuit (hourOf e)) →
      pctNuitVal t p = 1 ∧ pctMatinVal t p = 0 ∧
      pctApremVal t p = 0 ∧ pctSoirVal t p = 0) := by
  have hnil := subjRows_ne_nil hp
  have hlen0 : (subjRows t p).length ≠ 0 := by
    intro h
    exact hnil (List.length_eq_zero.mp h)
  have hlen : ((subjRows t p).length : ℚ) ≠ 0 := Nat.cast_ne_zero.mpr hlen0
  constructor
  · unfold pctNuitVal pctMatinVal pctApremVal pctSoirVal
    rw [div_add_div_same, div_add_div_same, div_add_div_same, div_eq_iff hlen,
      one_mul]
    exact_mod_cast countP_buckets (subjRows t p)
  · intro hall
    have hN : (subjRows t p).countP (fun e => isNuit (hourOf e))
        = (subjRows t p).length := by
      rw [List.countP_eq_length]
      intro e he
      simpa using hall e he
    have hM : (subjRows t p).countP (fun e => isMatin (hourOf e)) = 0 := by
      rw [List.countP_eq_zero]
      intro e he
      have := hall e he
      unfold isNuit at this
      unfold isMatin
      simp only [decide_eq_true_eq]
      omega
    have hA : (subjRows t p).countP (fun e => isAprem (hourOf e)) = 0 := by
      rw [List.countP_eq_zero]
      intro e he
      have := hall e he
      unfold isNuit at this
      unfold isAprem
      simp only [decide_eq_true_eq]
      omega
    have hS : (subjRows t p).countP (fun e => isSoir (hourOf e)) = 0 := by
      rw [List.countP_eq_zero]
      intro e he
      have := hall e he
      unfold isNuit at this
      unfold isSoir
      simp only [decide_eq_true_eq]
      omega
    refine ⟨?_, ?_, ?_, ?_⟩
    · unfold pctNuitVal
      rw [hN]
      exact div_self hlen
    · unfold pctMatinVal
      rw [hM]
      simp
    · unfold pctApremVal
      rw [hA]
      simp
    · unfold pctSoirVal
      rw [hS]
      simp

/-- C8 witness: the hours-23-and-2 log. -/
theorem c8_bucket_fractions_sum_witness :
    "n" ∈ pseudos exNight ∧
    (pctNuitVal exNight "n" + pctMatinVal exNight "n" + pctApremVal exNight "n" +
        pctSoirVal exNight "n" = 1 ∧
      ((∀ e ∈ subjRows exNight "n", isNuit (hourOf e)) →
        pctNuitVal exNight "n" = 1 ∧ pctMatinVal exNight "n" = 0 ∧
        pctApremVal exNight "n" = 0 ∧ pctSoirVal exNight "n" = 0)) :=
  ⟨by decide, c8_bucket_fractions_sum exNight "n" (by decide)⟩

/-- A feature table with one constant numeric column. -/
def exConst : FTable := { idx := [0, 1], ncols := [("c", [5, 5])], ccols := [] }

/-- A feature table with one two-valued numeric column. -/
def exScale : FTable := { idx := [0, 1], ncols := [("c", [1, 3])], ccols := [] }

/-- C5, counterexample: on a constant column the scaler maps every value,
in particular the column's maximum observed value 5 (at row 0), to 0 and
not to 1 — sklearn replaces the zero range `max - min` by 1 instead of
producing 1 at the maximum. -/
theorem c5_counterexample :
    (scaling exConst).ncols = [("c", [0, 0])] ∧
    lstMax 0 [(5 : ℚ), 5] = 5 ∧
    (minmaxScale [(5 : ℚ), 5])[0]? = some 0 ∧ (0 : ℚ) ≠ 1 := by
  refine ⟨?_, by norm_num [lstMax], ?_, by norm_num⟩
  · unfold scaling exConst
    norm_num [minmaxScale, mmSpan, lstMax, lstMin]
  · norm_num [minmaxScale, mmSpan, lstMax, lstMin]

/-- C5, amended: after min-max scaling every value of a non-key column
lies in `[0, 1]` and any position holding the column's minimum maps to
exactly 0; any position holding the column's maximum maps to exactly 1
*provided the column is not constant* — for a constant column the zero
range is replaced by 1 and every value (including the maximum) maps to 0. -/
theorem c5_scaling_bounds (df : FTable) (n : String) (xs : List ℚ)
    (h : (n, xs) ∈ df.ncols) :
    (n, minmaxScale xs) ∈ (scaling df).ncols ∧
    (∀ y ∈ minmaxScale xs, 0 ≤ y ∧ y ≤ 1) ∧
    (∀ i : ℕ, xs[i]? = some (lstMin 0 xs) → (minmaxScale xs)[i]? = some 0) ∧
    (lstMin 0 xs ≠ lstMax 0 xs →
      ∀ i : ℕ, xs[i]? = some (lstMax 0 xs) → (minmaxScale xs)[i]? = some 1) := by
  refine ⟨?_, ?_, ?_, ?_⟩
  · unfold scaling
    simpa using List.mem_map_of_mem (fun c => (c.1, minmaxScale c.2)) h
  · intro y hy
    unfold minmaxScale at hy
    rcases List.mem_map.mp hy with ⟨x, hx, rfl⟩
    have hlo := lstMin_le 0 hx
    have hhi := le_lstMax 0 hx
    unfold mmSpan
    by_cases hz : lstMax 0 xs - lstMin 0 xs = 0
    · have hxlo : x = lstMin 0 xs := le_antisymm (by linarith [sub_eq_zero.mp hz]) hlo
      rw [if_pos hz, hxlo]
      norm_num
    · have hpos : 0 < lstMax 0 xs - lstMin 0 xs :=
        lt_of_le_of_ne (by linarith) (Ne.symm hz)
      rw [if_neg hz]
      constructor
      · exact div_nonneg (by linarith) hpos.le
      · rw [div_le_one hpos]
        linarith
  · intro i hi
    unfold minmaxScale
    rw [List.getElem?_map, hi]
    simp
  · intro hne i hi
    have hz : lstMax 0 xs - lstMin 0 xs ≠ 0 := sub_ne_zero.mpr (Ne.symm hne)
    unfold minmaxScale mmSpan
    rw [List.getElem?_map, hi]
    simp [if_neg hz, div_self hz]

/-- C5 witness: the two-valued column `[1, 3]`. -/
theorem c5_scaling_bounds_witness :
    ("c", [(1 : ℚ), 3]) ∈ exScale.ncols ∧
    (("c", minmaxScale [(1 : ℚ), 3]) ∈ (scaling exScale).ncols ∧
      (∀ y ∈ minmaxScale [(1 : ℚ), 3], 0 ≤ y ∧ y ≤ 1) ∧
      (∀ i : ℕ, [(1 : ℚ), 3][i]? = some (lstMin 0 [(1 : ℚ), 3]) →
        (minmaxScale [(1 : ℚ), 3])[i]? = some 0) ∧
      (lstMin 0 [(1 : ℚ), 3] ≠ lstMax 0 [(1 : ℚ), 3] →
        ∀ i : ℕ, [(1 : ℚ), 3][i]? = some (lstMax 0 [(1 : ℚ), 3]) →
          (minmaxScale [(1 : ℚ), 3])[i]? = some 1)) :=
  ⟨by simp [exScale], c5_scaling_bounds exScale "c" [1, 3] (by simp [exScale])⟩

theorem zipProd_symm (a b : ℚ) :
    ∀ (xs ys : List ℚ),
      ((xs.zip ys).map (fun r => (r.1 - a) * (r.2 - b))).sum
        = ((ys.zip xs).map (fun r => (r.1 - b) * (r.2 - a))).sum := by
  intro xs
  induction xs with
  | nil => intro ys; cases ys <;> simp
  | cons x xs ih =>
    intro ys
    cases ys with
    | nil => simp
    | cons y ys =>
      simp only [List.zip_cons_cons, List.map_cons, List.sum_cons]
      rw [ih ys]
      ring

theorem qCov_symm (xs ys : List ℚ) : qCov xs ys = qCov ys xs := by
  unfold qCov
  exact zipProd_symm (qMean xs) (qMean ys) xs ys

theorem perfectCorr_symm {xs ys : List ℚ} (h : perfectCorr xs ys) :
    perfectCorr ys xs := by
  obtain ⟨h1, h2, h3⟩ := h
  refine ⟨h2, h1, ?_⟩
  rw [qCov_symm ys xs, h3, mul_comm]

theorem pairwise_filterMap_of {α : Type} {l : List ℕ} {S : ℕ → ℕ → Prop}
    (f : ℕ → Option α) {R : α → α → Prop}
    (hf : ∀ a b x y, S a b → f a = some x → f b = some y → R x y) :
    l.Pairwise S → (l.filterMap f).Pairwise R := by
  intro h
  induction h with
  | nil => simp
  | @cons a l ha _ ih =>
    rw [List.filterMap_cons]
    cases hfa : f a with
    | none => exact ih
    | some x =>
      refine List.Pairwise.cons ?_ ih
      intro y hy
      rcases List.mem_filterMap.mp hy with ⟨b, hb, hfb⟩
      exact hf a b x y (ha b hb) hfa hfb

theorem mem_retainedIdx (df : FTable) {i : ℕ} :
    i ∈ retainedIdx df ↔
      i < df.ncols.length ∧
        ∀ j < i, ¬ perfectCorr (colVals df i) (colVals df j) := by
  unfold retainedIdx
  simp [List.mem_filter, List.mem_range, List.any_eq_true]

/-- C7: the upper-triangular scan of `enlever_correlations_complets` marks
column `i` exactly when some earlier column `j < i` is perfectly
correlated with it (so the earlier-indexed column of each comparison
survives the comparison), and consequently no two retained numeric columns
are perfectly correlated. -/
theorem c7_pruning_no_perfect_pairs (df : FTable) :
    (∀ i : ℕ, i ∈ droppedIdx df ↔
      i < df.ncols.length ∧
        ∃ j < i, perfectCorr (colVals df i) (colVals df j)) ∧
    (enlever_correlations_complets df).ncols.Pairwise
      (fun c d => ¬ perfectCorr c.2 d.2) := by
  constructor
  · intro i
    unfold droppedIdx
    simp [List.mem_filter, List.mem_range, List.any_eq_true]
  · unfold enlever_correlations_complets
    have hplt : (retainedIdx df).Pairwise (· < ·) := by
      unfold retainedIdx
      exact (List.pairwise_lt_range _).filter _
    have hmem : (retainedIdx df).Pairwise
        (fun a b => a < b ∧ a ∈ retainedIdx df ∧ b ∈ retainedIdx df) :=
      List.Pairwise.imp_of_mem (fun ha hb hlt => ⟨hlt, ha, hb⟩) hplt
    refine pairwise_filterMap_of _ ?_ hmem
    rintro a b x y ⟨hlt, _, hb⟩ hfa hfb
    have hsurv : ¬ perfectCorr (colVals df b) (colVals df a) :=
      ((mem_retainedIdx df).mp hb).2 a hlt
    have hcx : colVals df a = x.2 := by
      unfold colVals
      rw [hfa]
      rfl
    have hcy : colVals df b = y.2 := by
      unfold colVals
      rw [hfb]
      rfl
    intro hpc
    rw [hcx, hcy] at hsurv
    exact hsurv (perfectCorr_symm hpc)

theorem findIdx_congr {α : Type} (p q : α → Bool) :
    ∀ l : List α, (∀ a ∈ l, p a = q a) → l.findIdx p = l.findIdx q := by
  intro l
  induction l with
  | nil => intro _; rfl
  | cons a l ih =>
    intro h
    rw [List.findIdx_cons p a l, List.findIdx_cons q a l, h a (List.mem_cons_self a l),
      ih (fun b hb => h b (List.mem_cons_of_mem _ hb))]

/-- On the indicator list of a value `x` over a duplicate-free vocabulary
containing `x`, exactly one entry is 1, and the first position whose entry
is a maximum of the list (the argmax) indexes `x` in the vocabulary. -/
theorem oneHot_argmax_spec (x : String) :
    ∀ L : List String, L.Nodup → x ∈ L →
      ((L.map (fun v => if x = v then (1 : ℚ) else 0)).count 1 = 1) ∧
      (L[listArgmax (L.map (fun v => if x = v then (1 : ℚ) else 0))]? = some x) := by
  intro L
  induction L with
  | nil => intro _ hx; cases hx
  | cons a L ih =>
    intro hnd hx
    have helem : ∀ q ∈ L.map (fun v => if x = v then (1 : ℚ) else 0), q = 0 ∨ q = 1 := by
      intro q hq
      rcases List.mem_map.mp hq with ⟨v, _, rfl⟩
      by_cases hxv : x = v
      · rw [if_pos hxv]; right; rfl
      · rw [if_neg hxv]; left; rfl
    by_cases hxa : x = a
    · subst hxa
      have hnotin : x ∉ L := (List.nodup_cons.mp hnd).1
      have htail0 : ∀ y ∈ L.map (fun v => if x = v then (1 : ℚ) else 0), y = 0 := by
        intro y hy
        rcases List.mem_map.mp hy with ⟨v, hv, rfl⟩
        have hne : ¬ x = v := fun he => hnotin (by rw [he]; exact hv)
        rw [if_neg hne]
      have hcnt0 : (L.map (fun v => if x = v then (1 : ℚ) else 0)).count 1 = 0 := by
        rw [List.count_eq_zero]
        intro h1
        have := htail0 1 h1
        norm_num at this
      have hx1 : (if x = x then (1 : ℚ) else 0) = 1 := if_pos rfl
      constructor
      · simp only [List.map_cons, hx1, List.count_cons, hcnt0]
        norm_num
      · have hall : ((1 : ℚ) :: L.map (fun v => if x = v then (1 : ℚ) else 0)).all
            (fun y => y ≤ 1) = true := by
          rw [List.all_eq_true]
          intro y hy
          rcases List.mem_cons.mp hy with rfl | hy2
          · simp
          · have := htail0 y hy2
            simp [this]
        unfold listArgmax
        simp only [List.map_cons, List.findIdx_cons, if_true]
        rw [hall]
        simp only [cond_true, List.getElem?_cons_zero]
    · have hxL : x ∈ L := by
        rcases List.mem_cons.mp hx with h | h
        · exact absurd h hxa
        · exact h
      have ihsp := ih (List.nodup_cons.mp hnd).2 hxL
      have hone : (1 : ℚ) ∈ L.map (fun v => if x = v then (1 : ℚ) else 0) := by
        have : (if x = x then (1 : ℚ) else 0) ∈ L.map (fun v => if x = v then (1 : ℚ) else 0) :=
          List.mem_map_of_mem _ hxL
        rwa [if_pos rfl] at this
      constructor
      · simp only [List.map_cons, if_neg hxa, List.count_cons, ihsp.1]
        norm_num
      · -- the head indicator is 0, and some later entry is 1, so the head is
        -- not an argmax; the scan continues in the tail with the same result
        have hhead : ((0 : ℚ) :: L.map (fun v => if x = v then (1 : ℚ) else 0)).all
            (fun y => y ≤ 0) = false := by
          rw [List.all_eq_false]
          exact ⟨1, List.mem_cons_of_mem _ hone, by norm_num⟩
        unfold listArgmax at ihsp ⊢
        simp only [List.map_cons, if_neg hxa]
        rw [List.findIdx_cons]
        rw [hhead]
        simp only [cond_false]
        rw [List.getElem?_cons_succ]
        have hcongr : (L.map (fun v => if x = v then (1 : ℚ) else 0)).findIdx
            (fun q => ((0 : ℚ) :: L.map (fun v => if x = v then (1 : ℚ) else 0)).all
              (fun y => y ≤ q))
            = (L.map (fun v => if x = v then (1 : ℚ) else 0)).findIdx
            (fun q => (L.map (fun v => if x = v then (1 : ℚ) else 0)).all
              (fun y => y ≤ q)) := by
          apply findIdx_congr
          intro q hq
          rw [List.all_cons]
          have h0q : (0 : ℚ) ≤ q := by
            rcases helem q hq with rfl | rfl
            · exact le_refl _
            · norm_num
          simp [h0q]
        rw [hcongr]
        exact ihsp.2

theorem infix_flatMap_of_mem {α β : Type} {x : α} (f : α → List β) :
    ∀ {l : List α}, x ∈ l → (f x).IsInfix (l.flatMap f) := by
  intro l
  induction l with
  | nil => intro hx; cases hx
  | cons a l ih =>
    intro hx
    rw [List.flatMap_cons]
    rcases List.mem_cons.mp hx with rfl | hx2
    · exact ⟨[], l.flatMap f, by simp⟩
    · rcases ih hx2 with ⟨s, u, hs⟩
      exact ⟨f a ++ s, u, by rw [← hs]; simp [List.append_assoc]⟩

theorem isInfix_append_left {α : Type} (pre : List α) {l m : List α}
    (h : l.IsInfix m) : l.IsInfix (pre ++ m) := by
  rcases h with ⟨s, u, hs⟩
  exact ⟨pre ++ s, u, by rw [← hs]; simp [List.append_assoc]⟩

/-- The values that the indicator group of a categorical column (original
values `vals`, vocabulary `sortedKeys vals`) takes at output row `i` of
`encodage`, after the index join: one `Option ℚ` per vocabulary entry. -/
def encRow (vals : List String) (idx : List ℕ) (i : ℕ) : List (Option ℚ) :=
  (sortedKeys vals).map
    (fun v => ((idx.map (fun L => (oneHotCol vals v)[L]?))[i]?).getD none)

theorem encRow_range (vals : List String) (i : ℕ) (h3 : i < vals.length) :
    encRow vals (List.range vals.length) i
      = ((sortedKeys vals).map
          (fun v => if vals.get ⟨i, h3⟩ = v then (1 : ℚ) else 0)).map some := by
  unfold encRow
  rw [List.map_map]
  apply List.map_congr_left
  intro v _
  show ((List.range vals.length).map
      (fun L => (oneHotCol vals v)[L]?))[i]?.getD none = _
  rw [List.getElem?_map, List.getElem?_range h3]
  unfold oneHotCol
  simp [List.getElem?_map, List.getElem?_eq_getElem h3]

/-- A feature table whose pandas index is `[2]`: the single row carries
the label 2, as happens for a one-row split sampled from a larger table. -/
def exC4 : FTable := { idx := [2], ncols := [], ccols := [("c", ["a"])] }

/-- C4, counterexample: on an input whose index is not the default range
index, `encodage`'s join misaligns — the single output row of this table
has a missing value (`none`) in its only indicator column instead of a
single 1, so the one-hot/argmax round trip fails. -/
theorem c4_counterexample :
    (encodage exC4).ncols = [("c_a", [none])] ∧
    ((encodage exC4).ncols.map (fun c => (c.2[0]?).getD none)).count (some (1 : ℚ))
      = 0 ∧ (0 : ℕ) ≠ 1 := by
  refine ⟨by decide, by decide, by decide⟩

/-- C4, amended: provided the input table's row index is the default
positional index `0 .. n-1` (so that the source's `join` of the freshly
indexed indicator dataframe aligns rows correctly), the encoded table
contains the indicator group of every categorical column as a contiguous
block, each row of that group carries exactly one indicator equal to 1,
and the vocabulary entry at the argmax position of the row is the row's
original category value.  (With a non-default index, as for a shuffled
train split, the join misaligns and the property fails.) -/
theorem c4_encoding_round_trip (df : FTable) (n : String) (vs : List String)
    (i : ℕ) (h1 : (n, vs) ∈ df.ccols) (h2 : df.idx = List.range vs.length)
    (h3 : i < vs.length) :
    ((sortedKeys vs).map (fun v =>
        (n ++ "_" ++ v, df.idx.map (fun L => (oneHotCol vs v)[L]?)))).IsInfix
      (encodage df).ncols ∧
    ((encRow vs df.idx i).map (fun o => o.getD 0)).count 1 = 1 ∧
    (sortedKeys vs)[listArgmax ((encRow vs df.idx i).map (fun o => o.getD 0))]?
      = vs[i]? := by
  have hx : vs.get ⟨i, h3⟩ ∈ sortedKeys vs :=
    mem_sortedKeys.mpr (vs.get_mem i h3)
  have hnd : (sortedKeys vs).Nodup := sortedKeys_nodup vs
  have hspec := oneHot_argmax_spec (vs.get ⟨i, h3⟩) (sortedKeys vs) hnd hx
  have hid : ((fun o => Option.getD o 0) ∘ some) = fun q : ℚ => q := by
    funext q
    rfl
  refine ⟨?_, ?_, ?_⟩
  · unfold encodage
    apply isInfix_append_left
    exact infix_flatMap_of_mem
      (fun c => (sortedKeys c.2).map (fun v =>
        (c.1 ++ "_" ++ v, df.idx.map (fun L => (oneHotCol c.2 v)[L]?)))) h1
  · rw [h2, encRow_range vs i h3, List.map_map, hid, List.map_id']
    exact hspec.1
  · rw [h2, encRow_range vs i h3, List.map_map, hid, List.map_id']
    rw [hspec.2, List.getElem?_eq_getElem h3]
    rfl

/-- A two-row feature table with the default index and one categorical
column. -/
def exC4w : FTable := { idx := [0, 1], ncols := [], ccols := [("c", ["b", "a"])] }

/-- C4 witness: the default-index two-row table. -/
theorem c4_encoding_round_trip_witness :
    ("c", ["b", "a"]) ∈ exC4w.ccols ∧ exC4w.idx = List.range (["b", "a"].length) ∧
    0 < (["b", "a"] : List String).length ∧
    (((sortedKeys ["b", "a"]).map (fun v =>
        ("c" ++ "_" ++ v, exC4w.idx.map (fun L => (oneHotCol ["b", "a"] v)[L]?)))).IsInfix
      (encodage exC4w).ncols ∧
    ((encRow ["b", "a"] exC4w.idx 0).map (fun o => o.getD 0)).count 1 = 1 ∧
    (sortedKeys ["b", "a"])[listArgmax
        ((encRow ["b", "a"] exC4w.idx 0).map (fun o => o.getD 0))]?
      = (["b", "a"] : List String)[0]?) :=
  ⟨by decide, by decide, by decide,
    c4_encoding_round_trip exC4w "c" ["b", "a"] 0 (by decide) (by decide) (by decide)⟩

end ProjetNotes
